import Mathlib

/-!
Email verification server: `main.go`

A shallow embedding of `src/main.go` (`isValidEmail`, `checkSPF`, `checkDMARC`,
`verifyEmailHandler`) and of the library calls it makes (`regexp`, `strings`, `net`,
`encoding/json`, `net/http`), followed by the properties proved about it.

* Go strings are modelled by `String`; the text handed to the matcher and to `strings.Split` is
  its list of characters.  Every character class of the pattern is ASCII and `@` is ASCII, so
  on these texts characters and bytes give the same answers.
* The DNS is a `net.Resolver`: for each name, what `LookupMX` and `LookupTXT` return, records
  and error.  One call of `isValidEmail` asks each question once.  The functions return, next
  to their results, the list of lookups they made.
* A run-time panic (`parts[1]` out of range) is the result `none`.
* The JSON decoder of the request is a parameter of the handler; the JSON written is the list
  of the fields of the object, in order.
-/

set_option autoImplicit false

/-! ## `regexp`: syntax and matching -/

/-- Regular expressions, as far as the pattern of `isValidEmail` needs them: the two text
anchors, character classes, concatenation and repetition. -/
inductive Regex where
  /-- The anchor `^` without the multi-line flag: at the beginning of the text. -/
  | beginText : Regex
  /-- The anchor `$` without the multi-line flag: at the end of the text. -/
  | endText : Regex
  /-- The form `[...]`: a character class, a union of inclusive ranges. -/
  | cls (ranges : List (Char × Char)) : Regex
  /-- The form `ab`: concatenation. -/
  | cat (a b : Regex) : Regex
  /-- The form `a*`: zero or more repetitions. -/
  | star (a : Regex) : Regex

namespace Regex

/-- Membership of a character in a class. -/
def inClass (ranges : List (Char × Char)) (c : Char) : Bool :=
  ranges.any fun r => decide (r.1 ≤ c) && decide (c ≤ r.2)

/-- A literal character such as `@` or `\.`. -/
def lit (c : Char) : Regex := cls [(c, c)]

/-- The form `a+`, which is `aa*`. -/
def plus (a : Regex) : Regex := cat a (star a)

/-- The form `a{n,}`, which is `n` copies of `a` followed by `a*`. -/
def atLeast : Nat → Regex → Regex
  | 0, a => star a
  | n + 1, a => cat a (atLeast n a)

/-- The iteration behind `a*`: `step` gives the texts left after one match of `a`; only steps
that consume input are repeated, so `fuel` equal to the length of the text is enough. -/
def starEnds (step : List Char → List (List Char)) : Nat → List Char → List (List Char)
  | 0, s => [s]
  | fuel + 1, s =>
    s :: ((step s).filter fun t => decide (t.length < s.length)).flatMap (starEnds step fuel)

/-- All the ways `re` matches at a position of a text of `n` characters: `s` is the text from
that position on, the result lists the text left after each match. -/
def ends (n : Nat) : Regex → List Char → List (List Char)
  | beginText, s => if s.length = n then [s] else []
  | endText, s => if s.length = 0 then [s] else []
  | cls ranges, s =>
    match s with
    | [] => []
    | c :: t => if inClass ranges c then [t] else []
  | cat a b, s => (ends n a s).flatMap (ends n b)
  | star a, s => starEnds (ends n a) s.length s

/-- The method `(*Regexp).MatchString`: whether the text contains a match of `re`, starting
anywhere. -/
def MatchString (re : Regex) (s : String) : Bool :=
  s.data.tails.any fun t => !(ends s.data.length re t).isEmpty

end Regex

/-- The compiled pattern of `isValidEmail`:
`^[a-zA-Z0-9._%+-]+@[a-zA-Z0-9.-]+\.[a-zA-Z]{2,}$`. -/
def emailPattern : Regex :=
  .cat .beginText <|
  .cat (.plus (.cls [('a', 'z'), ('A', 'Z'), ('0', '9'), ('.', '.'), ('_', '_'), ('%', '%'),
    ('+', '+'), ('-', '-')])) <|
  .cat (.lit '@') <|
  .cat (.plus (.cls [('a', 'z'), ('A', 'Z'), ('0', '9'), ('.', '.'), ('-', '-')])) <|
  .cat (.lit '.') <|
  .cat (.atLeast 2 (.cls [('a', 'z'), ('A', 'Z')]))
  .endText

/-! ## `strings` -/

namespace strings

/-- The function `strings.HasPrefix`: whether `s` begins with `pfx`. -/
def HasPrefix (s pfx : String) : Bool :=
  pfx.data.isPrefixOf s.data

/-- The function `strings.Index` on character lists: the position of the first instance of
`sep` in `s`. -/
def Index (sep : List Char) : List Char → Option Nat
  | [] => if sep.isPrefixOf [] then some 0 else none
  | c :: t => if sep.isPrefixOf (c :: t) then some 0 else (Index sep t).map (· + 1)

/-- The loop of `genSplit`: cut at the first instance of `sep` and go on after it, until
`Index` finds none.  It runs once per instance of `sep`, so at most `len(s)` times. -/
def genSplit (sep : List Char) : Nat → List Char → List (List Char)
  | 0, s => [s]
  | fuel + 1, s =>
    match Index sep s with
    | none => [s]
    | some m => s.take m :: genSplit sep fuel (s.drop (m + sep.length))

/-- The function `strings.Split`: the substrings of `s` between the instances of `sep`; an
empty `sep` splits after each character. -/
def Split (s sep : String) : List String :=
  if sep = "" then s.data.map fun c => String.mk [c]
  else (genSplit sep.data s.data.length s.data).map String.mk

end strings

/-! ## `net`: the resolver -/

namespace net

/-- The type `net.MX`: a mail-exchange record. -/
structure MX where
  Host : String
  Pref : Nat
  deriving DecidableEq

/-- The state of the DNS as the program sees it: what each lookup returns, as Go does, a list
of records together with an error (`none` for `nil`).  A lookup may return both. -/
structure Resolver where
  LookupMX : String → List MX × Option String
  LookupTXT : String → List String × Option String

/-- A lookup sent to the resolver. -/
inductive Query where
  | mx (name : String) : Query
  | txt (name : String) : Query
  deriving DecidableEq

end net

/-! ## `main.go` -/

/-- The body of a request to `/verify`. -/
structure EmailRequest where
  Email : String
  deriving DecidableEq

/-- The body of the answer. -/
structure EmailResponse where
  Valid : Bool
  Reason : String
  HasMX : Bool
  HasSPF : Bool
  SPFRecord : String
  HasDMARC : Bool
  DMARCRecord : String
  deriving DecidableEq

/-- The loop of `checkSPF`: the first record that begins with `v=spf1`. -/
def checkSPF.loop : List String → Bool × String
  | [] => (false, "")
  | record :: rest =>
    if strings.HasPrefix record "v=spf1" then (true, record) else checkSPF.loop rest

/-- The function `checkSPF`: the result, and the lookups made. -/
def checkSPF (dns : net.Resolver) (domain : String) : (Bool × String) × List net.Query :=
  let (txtRecords, err) := dns.LookupTXT domain
  if err ≠ none then
    ((false, ""), [.txt domain])
  else
    (checkSPF.loop txtRecords, [.txt domain])

/-- The loop of `checkDMARC`: the first record that begins with `v=DMARC1`. -/
def checkDMARC.loop : List String → Bool × String
  | [] => (false, "")
  | record :: rest =>
    if strings.HasPrefix record "v=DMARC1" then (true, record) else checkDMARC.loop rest

/-- The function `checkDMARC`: the result, and the lookups made. -/
def checkDMARC (dns : net.Resolver) (domain : String) : (Bool × String) × List net.Query :=
  let dmarcDomain := "_dmarc." ++ domain
  let (txtRecords, err) := dns.LookupTXT dmarcDomain
  if err ≠ none then
    ((false, ""), [.txt dmarcDomain])
  else
    (checkDMARC.loop txtRecords, [.txt dmarcDomain])

/-- The function `isValidEmail`: the seven results (`none` when `parts[1]` is out of range and
the function panics), and the lookups made, in order. -/
def isValidEmail (dns : net.Resolver) (email : String) :
    Option (Bool × String × Bool × Bool × String × Bool × String) × List net.Query :=
  let re := emailPattern
  if !re.MatchString email then
    (some (false, "Invalid email format", false, false, "", false, ""), [])
  else
    let parts := strings.Split email "@"
    match parts[1]? with
    | none => (none, [])
    | some domain =>
      let (mxRecords, err) := dns.LookupMX domain
      let hasMX := decide (err = none) && decide (mxRecords.length > 0)
      let ((hasSPF, spfRecord), spfQueries) := checkSPF dns domain
      let ((hasDMARC, dmarcRecord), dmarcQueries) := checkDMARC dns domain
      let queries := .mx domain :: (spfQueries ++ dmarcQueries)
      if !hasMX then
        (some (false, "Domain does not have valid MX records", hasMX, hasSPF, spfRecord,
          hasDMARC, dmarcRecord), queries)
      else
        (some (true, "", hasMX, hasSPF, spfRecord, hasDMARC, dmarcRecord), queries)

namespace json

/-- The JSON values an `EmailResponse` is made of. -/
inductive Value where
  | bool (b : Bool) : Value
  | string (s : String) : Value
  deriving DecidableEq

/-- A string field tagged `omitempty`: left out when empty. -/
def omitempty (key : String) (s : String) : List (String × Value) :=
  if s = "" then [] else [(key, .string s)]

/-- The JSON object `Encode` writes for an `EmailResponse`, field by field, after the tags of
the struct. -/
def Encode (v : EmailResponse) : List (String × Value) :=
  [("valid", .bool v.Valid)] ++ omitempty "reason" v.Reason ++
  [("hasMX", .bool v.HasMX), ("hasSPF", .bool v.HasSPF)] ++ omitempty "spfRecord" v.SPFRecord ++
  [("hasDMARC", .bool v.HasDMARC)] ++ omitempty "dmarcRecord" v.DMARCRecord

end json

namespace http

/-- What the handler reads of an `http.Request`. -/
structure Request where
  Method : String
  Body : String
  deriving DecidableEq

/-- What a handler writes: a line of text or a JSON object. -/
inductive Body where
  | text (s : String) : Body
  | json (fields : List (String × json.Value)) : Body
  deriving DecidableEq

/-- The answer as the `http.ResponseWriter` is left with it. -/
structure Response where
  status : Nat
  contentType : String
  body : Body
  deriving DecidableEq

def MethodPost : String := "POST"
def StatusOK : Nat := 200
def StatusBadRequest : Nat := 400
def StatusMethodNotAllowed : Nat := 405

/-- The function `http.Error`: a plain-text answer with the given status. -/
def Error (error : String) (code : Nat) : Response :=
  { status := code, contentType := "text/plain; charset=utf-8", body := .text (error ++ "\n") }

end http

/-- The handler `verifyEmailHandler`.  The parameter `decode` stands for
`json.NewDecoder(r.Body).Decode(&req)` on a zero `EmailRequest`: `none` when it returns an
error, the decoded request otherwise.  The result is the answer written (`none` when
`isValidEmail` panics) and the lookups made. -/
def verifyEmailHandler (dns : net.Resolver) (decode : String → Option EmailRequest)
    (r : http.Request) : Option http.Response × List net.Query :=
  if r.Method ≠ http.MethodPost then
    (some (http.Error "Only POST method is allowed" http.StatusMethodNotAllowed), [])
  else
    match decode r.Body with
    | none => (some (http.Error "Invalid request body" http.StatusBadRequest), [])
    | some req =>
      let email := req.Email
      if email = "" then
        (some (http.Error "Email is required" http.StatusBadRequest), [])
      else
        match isValidEmail dns email with
        | (none, queries) => (none, queries)
        | (some (valid, reason, hasMX, hasSPF, spfRecord, hasDMARC, dmarcRecord), queries) =>
          let response : EmailResponse :=
            { Valid := valid, Reason := reason, HasMX := hasMX, HasSPF := hasSPF,
              SPFRecord := spfRecord, HasDMARC := hasDMARC, DMARCRecord := dmarcRecord }
          (some { status := http.StatusOK, contentType := "application/json",
                  body := .json (json.Encode response) }, queries)

/-! ## The pattern in words -/

/-- A character of the local part, as the specification words it: `[a-zA-Z0-9._%+-]`. -/
def isLocalChar (c : Char) : Bool :=
  c.isAlpha || c.isDigit || c == '.' || c == '_' || c == '%' || c == '+' || c == '-'

/-- A character of the domain labels, as the specification words it: `[a-zA-Z0-9.-]`. -/
def isLabelChar (c : Char) : Bool :=
  c.isAlpha || c.isDigit || c == '.' || c == '-'

/-- The format of an email in the words of the specification: a non-empty local part, `@`,
non-empty labels, a dot and a top-level domain of two or more ASCII letters, and nothing else. -/
def EmailFormat (email : String) : Prop :=
  ∃ loc labels tld : String,
    email = loc ++ "@" ++ labels ++ "." ++ tld ∧
    loc ≠ "" ∧ (∀ c ∈ loc.data, isLocalChar c = true) ∧
    labels ≠ "" ∧ (∀ c ∈ labels.data, isLabelChar c = true) ∧
    2 ≤ tld.length ∧ (∀ c ∈ tld.data, c.isAlpha = true)

/-- The words "begins with" of the specification: `s` is `tag` followed by some text. -/
def BeginsWith (s tag : String) : Prop :=
  ∃ rest : String, s = tag ++ rest

/-! ## Sample DNS states -/

/-- A DNS in which `example.com` has a mail exchanger, an SPF record after another TXT record,
and a DMARC record; no other name resolves. -/
def sampleDNS : net.Resolver where
  LookupMX name :=
    if name = "example.com" then ([⟨"mail.example.com.", 10⟩], none)
    else ([], some "no such host")
  LookupTXT name :=
    if name = "example.com" then
      (["docusign=1b0a6754", "v=spf1 include:_spf.example.com ~all"], none)
    else if name = "_dmarc.example.com" then (["v=DMARC1; p=none"], none)
    else ([], some "no such host")

/-- A DNS in which `example.org` has no mail exchanger, yet publishes SPF and DMARC records. -/
def noMailDNS : net.Resolver where
  LookupMX _ := ([], none)
  LookupTXT name :=
    if name = "example.org" then (["v=spf1 -all"], none)
    else if name = "_dmarc.example.org" then (["v=dmarc1; p=none", "v=DMARC1; p=reject"], none)
    else ([], some "no such host")

/-- A DNS in which every lookup returns an error, with records alongside it. -/
def failingDNS : net.Resolver where
  LookupMX _ := ([⟨"mx.example.net.", 1⟩], some "server misbehaving")
  LookupTXT _ := (["v=spf1 -all", "v=DMARC1; p=reject"], some "server misbehaving")

/-- A decoder for the sample requests: it knows three bodies and rejects the rest. -/
def sampleDecode (body : String) : Option EmailRequest :=
  if body = "\x7b\x7d" then some { Email := "" }
  else if body = "\x7b\"email\":\"user@example.com\"\x7d" then
    some { Email := "user@example.com" }
  else if body = "\x7b\"email\":\"nobody\"\x7d" then some { Email := "nobody" }
  else none

/-! ## Lemmas on matching -/

namespace Regex

theorem mem_ends_beginText {n : Nat} {s t : List Char} :
    t ∈ ends n beginText s ↔ s.length = n ∧ t = s := by
  unfold ends
  split <;> simp_all

theorem mem_ends_endText {n : Nat} {s t : List Char} :
    t ∈ ends n endText s ↔ s = [] ∧ t = [] := by
  unfold ends
  cases s <;> simp

theorem mem_ends_cls {n : Nat} {ranges : List (Char × Char)} {s t : List Char} :
    t ∈ ends n (cls ranges) s ↔ ∃ c, s = c :: t ∧ inClass ranges c = true := by
  unfold ends
  cases s with
  | nil => simp
  | cons c u =>
    by_cases h : inClass ranges c = true
    · simp only [h, if_true, List.mem_singleton, List.cons.injEq]
      constructor
      · rintro rfl; exact ⟨c, ⟨rfl, rfl⟩, h⟩
      · rintro ⟨d, ⟨rfl, rfl⟩, _⟩; rfl
    · simp only [h, List.cons.injEq]
      constructor
      · intro hf; simp at hf
      · rintro ⟨d, ⟨rfl, rfl⟩, hd⟩; exact absurd hd h

theorem mem_ends_cat {n : Nat} {a b : Regex} {s t : List Char} :
    t ∈ ends n (cat a b) s ↔ ∃ m, m ∈ ends n a s ∧ t ∈ ends n b m := by
  simp [ends, List.mem_flatMap]

theorem inClass_single {c d : Char} : inClass [(c, c)] d = true ↔ d = c := by
  simp only [inClass, List.any_cons, List.any_nil, Bool.or_false, Bool.and_eq_true,
    decide_eq_true_eq]
  constructor
  · rintro ⟨h1, h2⟩; exact le_antisymm h2 h1
  · rintro rfl; exact ⟨le_refl _, le_refl _⟩

theorem mem_ends_lit {n : Nat} {c : Char} {s t : List Char} :
    t ∈ ends n (lit c) s ↔ s = c :: t := by
  unfold lit
  rw [mem_ends_cls]
  constructor
  · rintro ⟨d, rfl, hd⟩; rw [inClass_single.mp hd]
  · intro h; exact ⟨c, h, inClass_single.mpr rfl⟩

/-- Repetition of a class: the texts left are those after a run of characters of the class. -/
theorem mem_starEnds_cls {n : Nat} {ranges : List (Char × Char)} {t : List Char} :
    ∀ (fuel : Nat) (s : List Char), s.length ≤ fuel →
      (t ∈ starEnds (ends n (cls ranges)) fuel s ↔
        ∃ w, s = w ++ t ∧ ∀ c ∈ w, inClass ranges c = true) := by
  intro fuel
  induction fuel with
  | zero =>
    intro s hs
    have hs0 : s = [] := List.length_eq_zero.mp (Nat.le_zero.mp hs)
    subst hs0
    simp only [starEnds, List.mem_singleton]
    constructor
    · rintro rfl; exact ⟨[], rfl, by simp⟩
    · rintro ⟨w, hw, _⟩
      have := List.append_eq_nil.mp hw.symm
      exact this.2
  | succ k ih =>
    intro s hs
    simp only [starEnds, List.mem_cons, List.mem_flatMap, List.mem_filter, decide_eq_true_eq,
      mem_ends_cls]
    constructor
    · rintro (rfl | ⟨m, ⟨⟨c, rfl, hc⟩, _⟩, hm⟩)
      · exact ⟨[], rfl, by simp⟩
      · have hk : m.length ≤ k := by simpa using hs
        obtain ⟨w, rfl, hw⟩ := (ih m hk).mp hm
        refine ⟨c :: w, rfl, ?_⟩
        intro d hd
        rcases List.mem_cons.mp hd with rfl | hd
        · exact hc
        · exact hw d hd
    · rintro ⟨w, rfl, hw⟩
      cases w with
      | nil => left; rfl
      | cons c w =>
        right
        have hk : (w ++ t).length ≤ k := by simpa using hs
        refine ⟨w ++ t, ⟨⟨c, rfl, hw c (List.mem_cons_self _ _)⟩, by simp⟩, ?_⟩
        exact (ih (w ++ t) hk).mpr ⟨w, rfl, fun d hd => hw d (List.mem_cons_of_mem _ hd)⟩

theorem mem_ends_star_cls {n : Nat} {ranges : List (Char × Char)} {s t : List Char} :
    t ∈ ends n (star (cls ranges)) s ↔ ∃ w, s = w ++ t ∧ ∀ c ∈ w, inClass ranges c = true := by
  have h : ends n (star (cls ranges)) s = starEnds (ends n (cls ranges)) s.length s := by
    simp [ends]
  rw [h]
  exact mem_starEnds_cls s.length s (le_refl _)

/-- At least `k` repetitions of a class: a run of `k` or more characters of the class. -/
theorem mem_ends_atLeast_cls {n : Nat} {ranges : List (Char × Char)} {t : List Char} :
    ∀ (k : Nat) (s : List Char),
      (t ∈ ends n (atLeast k (cls ranges)) s ↔
        ∃ w, k ≤ w.length ∧ s = w ++ t ∧ ∀ c ∈ w, inClass ranges c = true) := by
  intro k
  induction k with
  | zero =>
    intro s
    simp only [atLeast, mem_ends_star_cls, Nat.zero_le, true_and]
  | succ k ih =>
    intro s
    simp only [atLeast, mem_ends_cat, mem_ends_cls]
    constructor
    · rintro ⟨m, ⟨c, rfl, hc⟩, hm⟩
      obtain ⟨w, hk, rfl, hw⟩ := (ih m).mp hm
      refine ⟨c :: w, by simpa using hk, rfl, ?_⟩
      intro d hd
      rcases List.mem_cons.mp hd with rfl | hd
      · exact hc
      · exact hw d hd
    · rintro ⟨w, hk, rfl, hw⟩
      cases w with
      | nil => simp at hk
      | cons c w =>
        refine ⟨w ++ t, ⟨c, rfl, hw c (List.mem_cons_self _ _)⟩, ?_⟩
        exact (ih (w ++ t)).mpr
          ⟨w, by simpa using hk, rfl, fun d hd => hw d (List.mem_cons_of_mem _ hd)⟩

theorem mem_ends_plus_cls {n : Nat} {ranges : List (Char × Char)} {s t : List Char} :
    t ∈ ends n (plus (cls ranges)) s ↔
      ∃ w, w ≠ [] ∧ s = w ++ t ∧ ∀ c ∈ w, inClass ranges c = true := by
  have h := @mem_ends_atLeast_cls n ranges t 1 s
  simp only [atLeast] at h
  unfold plus
  rw [h]
  constructor
  · rintro ⟨w, hk, rfl, hw⟩
    refine ⟨w, ?_, rfl, hw⟩
    rintro rfl
    simp at hk
  · rintro ⟨w, hne, rfl, hw⟩
    exact ⟨w, List.length_pos.mpr hne, rfl, hw⟩

end Regex

theorem inClass_local (c : Char) :
    Regex.inClass [('a', 'z'), ('A', 'Z'), ('0', '9'), ('.', '.'), ('_', '_'), ('%', '%'),
      ('+', '+'), ('-', '-')] c = isLocalChar c := by
  have e : ∀ d : Char, (decide (d ≤ c) && decide (c ≤ d)) = (c == d) := by
    intro d
    rw [Bool.eq_iff_iff]
    simp only [Bool.and_eq_true, decide_eq_true_eq, beq_iff_eq]
    constructor
    · rintro ⟨h1, h2⟩; exact le_antisymm h2 h1
    · rintro rfl; exact ⟨le_refl _, le_refl _⟩
  simp only [Regex.inClass, List.any_cons, List.any_nil, Bool.or_false, e]
  simp only [isLocalChar,
    Char.isAlpha, Char.isUpper, Char.isLower, Char.isDigit, Char.le_def, ge_iff_le]
  have h1 : ('a' : Char).val = 97 := rfl
  have h2 : ('z' : Char).val = 122 := rfl
  have h3 : ('A' : Char).val = 65 := rfl
  have h4 : ('Z' : Char).val = 90 := rfl
  have h5 : ('0' : Char).val = 48 := rfl
  have h6 : ('9' : Char).val = 57 := rfl
  rw [h1, h2, h3, h4, h5, h6]
  generalize (decide (97 ≤ c.val) && decide (c.val ≤ 122)) = x
  generalize (decide (65 ≤ c.val) && decide (c.val ≤ 90)) = y
  generalize (decide (48 ≤ c.val) && decide (c.val ≤ 57)) = z
  cases x <;> cases y <;> simp [Bool.or_assoc]

theorem inClass_label (c : Char) :
    Regex.inClass [('a', 'z'), ('A', 'Z'), ('0', '9'), ('.', '.'), ('-', '-')] c
      = isLabelChar c := by
  have e : ∀ d : Char, (decide (d ≤ c) && decide (c ≤ d)) = (c == d) := by
    intro d
    rw [Bool.eq_iff_iff]
    simp only [Bool.and_eq_true, decide_eq_true_eq, beq_iff_eq]
    constructor
    · rintro ⟨h1, h2⟩; exact le_antisymm h2 h1
    · rintro rfl; exact ⟨le_refl _, le_refl _⟩
  simp only [Regex.inClass, List.any_cons, List.any_nil, Bool.or_false, e]
  simp only [isLabelChar,
    Char.isAlpha, Char.isUpper, Char.isLower, Char.isDigit, Char.le_def, ge_iff_le]
  have h1 : ('a' : Char).val = 97 := rfl
  have h2 : ('z' : Char).val = 122 := rfl
  have h3 : ('A' : Char).val = 65 := rfl
  have h4 : ('Z' : Char).val = 90 := rfl
  have h5 : ('0' : Char).val = 48 := rfl
  have h6 : ('9' : Char).val = 57 := rfl
  rw [h1, h2, h3, h4, h5, h6]
  generalize (decide (97 ≤ c.val) && decide (c.val ≤ 122)) = x
  generalize (decide (65 ≤ c.val) && decide (c.val ≤ 90)) = y
  generalize (decide (48 ≤ c.val) && decide (c.val ≤ 57)) = z
  cases x <;> cases y <;> simp [Bool.or_assoc]

theorem inClass_letter (c : Char) :
    Regex.inClass [('a', 'z'), ('A', 'Z')] c = c.isAlpha := by
  simp only [Regex.inClass, List.any_cons, List.any_nil, Bool.or_false,
    Char.isAlpha, Char.isUpper, Char.isLower, Char.le_def, ge_iff_le]
  have h1 : ('a' : Char).val = 97 := rfl
  have h2 : ('z' : Char).val = 122 := rfl
  have h3 : ('A' : Char).val = 65 := rfl
  have h4 : ('Z' : Char).val = 90 := rfl
  rw [h1, h2, h3, h4]
  generalize (decide (97 ≤ c.val) && decide (c.val ≤ 122)) = x
  generalize (decide (65 ≤ c.val) && decide (c.val ≤ 90)) = y
  cases x <;> cases y <;> simp

/-- The pattern on the characters of the text: it matches exactly the texts made of a run of
local-part characters, `@`, a run of label characters, a dot and two or more letters. -/
theorem matchString_emailPattern (email : String) :
    emailPattern.MatchString email = true ↔
      ∃ l d t : List Char, email.data = l ++ '@' :: (d ++ '.' :: t) ∧
        l ≠ [] ∧ (∀ c ∈ l, isLocalChar c = true) ∧
        d ≠ [] ∧ (∀ c ∈ d, isLabelChar c = true) ∧
        2 ≤ t.length ∧ (∀ c ∈ t, c.isAlpha = true) := by
  have hne : ∀ l : List (List Char), (!l.isEmpty) = true ↔ ∃ t, t ∈ l := by
    intro l; cases l <;> simp
  simp only [Regex.MatchString, List.any_eq_true, List.mem_tails, hne, emailPattern,
    Regex.mem_ends_cat, Regex.mem_ends_beginText, Regex.mem_ends_endText,
    Regex.mem_ends_plus_cls, Regex.mem_ends_lit, Regex.mem_ends_atLeast_cls,
    inClass_local, inClass_label, inClass_letter]
  constructor
  · rintro ⟨s, hs, e, m1, ⟨hlen, rfl⟩, m2, ⟨l, hl, rfl, hlc⟩, m3, rfl, m4, ⟨d, hd, rfl, hdc⟩,
      m5, rfl, m6, ⟨t, ht, rfl, htc⟩, rfl, rfl⟩
    have := hs.eq_of_length hlen
    exact ⟨l, d, t, by simpa using this.symm, hl, hlc, hd, hdc, ht, htc⟩
  · rintro ⟨l, d, t, he, hl, hlc, hd, hdc, ht, htc⟩
    refine ⟨email.data, List.suffix_refl _, [], email.data, ⟨rfl, rfl⟩, '@' :: (d ++ '.' :: t),
      ⟨l, hl, he, hlc⟩, d ++ '.' :: t, rfl, '.' :: t, ⟨d, hd, rfl, hdc⟩, t, rfl, [],
      ⟨t, ht, by simp, htc⟩, rfl, rfl⟩

/-! ## Lemmas on `strings` -/

namespace strings

theorem HasPrefix_iff (s pfx : String) :
    HasPrefix s pfx = true ↔ ∃ rest : String, s = pfx ++ rest := by
  unfold HasPrefix
  rw [List.isPrefixOf_iff_prefix]
  constructor
  · rintro ⟨t, ht⟩
    refine ⟨String.mk t, ?_⟩
    apply String.ext
    rw [String.data_append, ht]
  · rintro ⟨rest, rfl⟩
    exact ⟨rest.data, (String.data_append _ _).symm⟩

theorem Index_at_none (l : List Char) (h : '@' ∉ l) : Index ['@'] l = none := by
  induction l with
  | nil => simp [Index, List.isPrefixOf]
  | cons c t ih =>
    have hc : c ≠ '@' := fun e => h (e ▸ List.mem_cons_self _ _)
    have ht : '@' ∉ t := fun e => h (List.mem_cons_of_mem _ e)
    have hc' : ('@' == c) = false := by
      rw [beq_eq_false_iff_ne]; exact fun e => hc e.symm
    simp [Index, List.isPrefixOf, ih ht, hc']

theorem Index_at_some (l r : List Char) (h : '@' ∉ l) :
    Index ['@'] (l ++ '@' :: r) = some l.length := by
  induction l with
  | nil => simp [Index, List.isPrefixOf]
  | cons c t ih =>
    have hc : c ≠ '@' := fun e => h (e ▸ List.mem_cons_self _ _)
    have ht : '@' ∉ t := fun e => h (List.mem_cons_of_mem _ e)
    have hc' : ('@' == c) = false := by
      rw [beq_eq_false_iff_ne]; exact fun e => hc e.symm
    simp [Index, List.isPrefixOf, ih ht, hc']

theorem genSplit_at_none (fuel : Nat) (l : List Char) (h : '@' ∉ l) :
    genSplit ['@'] fuel l = [l] := by
  cases fuel with
  | zero => rfl
  | succ k => simp [genSplit, Index_at_none l h]

theorem genSplit_at_one (fuel : Nat) (l r : List Char) (hl : '@' ∉ l) (hr : '@' ∉ r) :
    genSplit ['@'] (fuel + 1) (l ++ '@' :: r) = [l, r] := by
  simp [genSplit, Index_at_some l r hl, genSplit_at_none fuel r hr]

/-- Splitting at `@` a text with exactly one `@`. -/
theorem Split_at (s : String) (l r : List Char) (hs : s.data = l ++ '@' :: r)
    (hl : '@' ∉ l) (hr : '@' ∉ r) :
    Split s "@" = [String.mk l, String.mk r] := by
  have hsep : ("@" : String) ≠ "" := by decide
  have hdata : ("@" : String).data = ['@'] := rfl
  have hlen : s.data.length = (l.length + r.length) + 1 := by
    rw [hs]; simp; omega
  unfold Split
  rw [if_neg hsep, hdata, hlen, hs, genSplit_at_one _ l r hl hr]
  rfl

end strings

/-! ## Lemmas on `isValidEmail` -/

theorem isLocalChar_ne_at {c : Char} (h : isLocalChar c = true) : c ≠ '@' := by
  rintro rfl
  revert h
  decide

theorem isLabelChar_ne_at {c : Char} (h : isLabelChar c = true) : c ≠ '@' := by
  rintro rfl
  revert h
  decide

theorem isAlpha_ne_at {c : Char} (h : c.isAlpha = true) : c ≠ '@' := by
  rintro rfl
  revert h
  decide

/-- The place of the first `@` of a text is determined by the text. -/
theorem at_unique :
    ∀ (l l' r r' : List Char), l ++ '@' :: r = l' ++ '@' :: r' → '@' ∉ l → '@' ∉ r →
      l = l' ∧ r = r' := by
  intro l
  induction l with
  | nil =>
    intro l' r r' h _ hr
    cases l' with
    | nil => simpa using h
    | cons c t =>
      simp only [List.nil_append, List.cons_append, List.cons.injEq] at h
      exact absurd (h.2 ▸ List.mem_append_right t (List.mem_cons_self _ _)) hr
  | cons c t ih =>
    intro l' r r' h hl hr
    have hc : c ≠ '@' := fun e => hl (e ▸ List.mem_cons_self _ _)
    have ht : '@' ∉ t := fun e => hl (List.mem_cons_of_mem _ e)
    cases l' with
    | nil =>
      simp only [List.nil_append, List.cons_append, List.cons.injEq] at h
      exact absurd h.1 hc
    | cons c' t' =>
      simp only [List.cons_append, List.cons.injEq] at h
      obtain ⟨h1, h2⟩ := ih t' r r' h.2 ht hr
      exact ⟨by rw [h.1, h1], h2⟩

/-- A matching email, on its characters: the parts, none of which holds an `@`. -/
theorem match_shape (email : String) (h : emailPattern.MatchString email = true) :
    ∃ l d t : List Char, email.data = l ++ '@' :: (d ++ '.' :: t) ∧
      l ≠ [] ∧ (∀ c ∈ l, isLocalChar c = true) ∧
      d ≠ [] ∧ (∀ c ∈ d, isLabelChar c = true) ∧
      2 ≤ t.length ∧ (∀ c ∈ t, c.isAlpha = true) ∧
      '@' ∉ l ∧ '@' ∉ d ++ '.' :: t := by
  obtain ⟨l, d, t, he, hl, hlc, hd, hdc, ht, htc⟩ := (matchString_emailPattern email).mp h
  refine ⟨l, d, t, he, hl, hlc, hd, hdc, ht, htc, ?_, ?_⟩
  · exact fun hm => isLocalChar_ne_at (hlc _ hm) rfl
  · intro hm
    rcases List.mem_append.mp hm with hm | hm
    · exact isLabelChar_ne_at (hdc _ hm) rfl
    · rcases List.mem_cons.mp hm with hm | hm
      · exact absurd hm (by decide)
      · exact isAlpha_ne_at (htc _ hm) rfl

/-- On a matching email written as `loc ++ "@" ++ domain`, `strings.Split` gives these two
parts. -/
theorem Split_of_match (email loc domain : String)
    (h : emailPattern.MatchString email = true) (he : email = loc ++ "@" ++ domain) :
    strings.Split email "@" = [loc, domain] := by
  obtain ⟨l, d, t, hd, -, -, -, -, -, -, hl, hr⟩ := match_shape email h
  have hdata : email.data = loc.data ++ '@' :: domain.data := by
    rw [he, String.data_append, String.data_append]
    simp
  obtain ⟨h1, h2⟩ := at_unique l loc.data _ domain.data (hd.symm.trans hdata) hl hr
  rw [strings.Split_at email l _ hd hl hr, h1, h2]

/-- The second branch of `isValidEmail`, once the email is known to match. -/
theorem isValidEmail_of_match (dns : net.Resolver) (email loc domain : String)
    (h : emailPattern.MatchString email = true) (he : email = loc ++ "@" ++ domain) :
    isValidEmail dns email =
      (some (decide ((dns.LookupMX domain).2 = none) && decide ((dns.LookupMX domain).1.length > 0),
        (if (decide ((dns.LookupMX domain).2 = none) &&
            decide ((dns.LookupMX domain).1.length > 0)) = true then ""
          else "Domain does not have valid MX records"),
        decide ((dns.LookupMX domain).2 = none) && decide ((dns.LookupMX domain).1.length > 0),
        (checkSPF dns domain).1.1, (checkSPF dns domain).1.2,
        (checkDMARC dns domain).1.1, (checkDMARC dns domain).1.2),
      .mx domain :: ((checkSPF dns domain).2 ++ (checkDMARC dns domain).2)) := by
  have hs := Split_of_match email loc domain h he
  unfold isValidEmail
  simp only [h, hs, Bool.not_true, Bool.false_eq_true, if_false, List.getElem?_cons_succ,
    List.getElem?_cons_zero]
  cases hmx : (decide ((dns.LookupMX domain).2 = none) &&
      decide ((dns.LookupMX domain).1.length > 0)) <;> simp

/-! ## Lemmas on the record loops -/

theorem checkSPF_loop_first (pre post : List String) (r : String)
    (hpre : ∀ x ∈ pre, strings.HasPrefix x "v=spf1" = false)
    (hr : strings.HasPrefix r "v=spf1" = true) :
    checkSPF.loop (pre ++ r :: post) = (true, r) := by
  induction pre with
  | nil => simp [checkSPF.loop, hr]
  | cons x xs ih =>
    have hx := hpre x (List.mem_cons_self _ _)
    simp only [List.cons_append, checkSPF.loop, hx, Bool.false_eq_true, if_false]
    exact ih fun y hy => hpre y (List.mem_cons_of_mem _ hy)

theorem checkSPF_loop_none (l : List String)
    (h : ∀ x ∈ l, strings.HasPrefix x "v=spf1" = false) :
    checkSPF.loop l = (false, "") := by
  induction l with
  | nil => rfl
  | cons x xs ih =>
    have hx := h x (List.mem_cons_self _ _)
    simp only [checkSPF.loop, hx, Bool.false_eq_true, if_false]
    exact ih fun y hy => h y (List.mem_cons_of_mem _ hy)

/-- What the loop of `checkSPF` returns: nothing, or a record of the list with the tag. -/
theorem checkSPF_loop_cases (l : List String) :
    checkSPF.loop l = (false, "") ∧ (∀ x ∈ l, strings.HasPrefix x "v=spf1" = false) ∨
      ∃ r ∈ l, strings.HasPrefix r "v=spf1" = true ∧ checkSPF.loop l = (true, r) := by
  induction l with
  | nil => left; exact ⟨rfl, by simp⟩
  | cons x xs ih =>
    cases hx : strings.HasPrefix x "v=spf1" with
    | true =>
      right
      exact ⟨x, List.mem_cons_self _ _, hx, by simp [checkSPF.loop, hx]⟩
    | false =>
      have e : checkSPF.loop (x :: xs) = checkSPF.loop xs := by simp [checkSPF.loop, hx]
      rcases ih with ⟨h1, h2⟩ | ⟨r, hr, h1, h2⟩
      · left
        refine ⟨e.trans h1, ?_⟩
        intro y hy
        rcases List.mem_cons.mp hy with rfl | hy
        · exact hx
        · exact h2 y hy
      · right
        exact ⟨r, List.mem_cons_of_mem _ hr, h1, e.trans h2⟩

theorem checkDMARC_loop_first (pre post : List String) (r : String)
    (hpre : ∀ x ∈ pre, strings.HasPrefix x "v=DMARC1" = false)
    (hr : strings.HasPrefix r "v=DMARC1" = true) :
    checkDMARC.loop (pre ++ r :: post) = (true, r) := by
  induction pre with
  | nil => simp [checkDMARC.loop, hr]
  | cons x xs ih =>
    have hx := hpre x (List.mem_cons_self _ _)
    simp only [List.cons_append, checkDMARC.loop, hx, Bool.false_eq_true, if_false]
    exact ih fun y hy => hpre y (List.mem_cons_of_mem _ hy)

theorem checkDMARC_loop_none (l : List String)
    (h : ∀ x ∈ l, strings.HasPrefix x "v=DMARC1" = false) :
    checkDMARC.loop l = (false, "") := by
  induction l with
  | nil => rfl
  | cons x xs ih =>
    have hx := h x (List.mem_cons_self _ _)
    simp only [checkDMARC.loop, hx, Bool.false_eq_true, if_false]
    exact ih fun y hy => h y (List.mem_cons_of_mem _ hy)

/-- What the loop of `checkDMARC` returns: nothing, or a record of the list with the tag. -/
theorem checkDMARC_loop_cases (l : List String) :
    checkDMARC.loop l = (false, "") ∧ (∀ x ∈ l, strings.HasPrefix x "v=DMARC1" = false) ∨
      ∃ r ∈ l, strings.HasPrefix r "v=DMARC1" = true ∧ checkDMARC.loop l = (true, r) := by
  induction l with
  | nil => left; exact ⟨rfl, by simp⟩
  | cons x xs ih =>
    cases hx : strings.HasPrefix x "v=DMARC1" with
    | true =>
      right
      exact ⟨x, List.mem_cons_self _ _, hx, by simp [checkDMARC.loop, hx]⟩
    | false =>
      have e : checkDMARC.loop (x :: xs) = checkDMARC.loop xs := by
        simp [checkDMARC.loop, hx]
      rcases ih with ⟨h1, h2⟩ | ⟨r, hr, h1, h2⟩
      · left
        refine ⟨e.trans h1, ?_⟩
        intro y hy
        rcases List.mem_cons.mp hy with rfl | hy
        · exact hx
        · exact h2 y hy
      · right
        exact ⟨r, List.mem_cons_of_mem _ hr, h1, e.trans h2⟩

theorem checkSPF_of_ok (dns : net.Resolver) (domain : String) (l : List String)
    (h : dns.LookupTXT domain = (l, none)) :
    checkSPF dns domain = (checkSPF.loop l, [.txt domain]) := by
  simp [checkSPF, h]

theorem checkSPF_of_err (dns : net.Resolver) (domain : String)
    (h : (dns.LookupTXT domain).2 ≠ none) :
    checkSPF dns domain = ((false, ""), [.txt domain]) := by
  simp [checkSPF, h]

theorem checkDMARC_of_ok (dns : net.Resolver) (domain : String) (l : List String)
    (h : dns.LookupTXT ("_dmarc." ++ domain) = (l, none)) :
    checkDMARC dns domain = (checkDMARC.loop l, [.txt ("_dmarc." ++ domain)]) := by
  simp [checkDMARC, h]

theorem checkDMARC_of_err (dns : net.Resolver) (domain : String)
    (h : (dns.LookupTXT ("_dmarc." ++ domain)).2 ≠ none) :
    checkDMARC dns domain = ((false, ""), [.txt ("_dmarc." ++ domain)]) := by
  simp [checkDMARC, h]

theorem not_HasPrefix_iff (s pfx : String) :
    strings.HasPrefix s pfx = false ↔ ¬ ∃ rest : String, s = pfx ++ rest := by
  rw [← strings.HasPrefix_iff, Bool.not_eq_true]

/-! ## The format in words, and the results of `isValidEmail` -/

theorem mk_ne_empty {l : List Char} (h : l ≠ []) : String.mk l ≠ "" := by
  intro e
  exact h (congrArg String.data e)

theorem data_ne_nil {s : String} (h : s ≠ "") : s.data ≠ [] := by
  intro e
  exact h (String.ext e)

/-- A matching email, on strings: its three parts, and where its only `@` is. -/
theorem match_decomp (email : String) (h : emailPattern.MatchString email = true) :
    ∃ loc labels tld : String,
      email = loc ++ "@" ++ labels ++ "." ++ tld ∧
      email = loc ++ "@" ++ (labels ++ "." ++ tld) ∧
      loc ≠ "" ∧ (∀ c ∈ loc.data, isLocalChar c = true) ∧
      labels ≠ "" ∧ (∀ c ∈ labels.data, isLabelChar c = true) ∧
      2 ≤ tld.length ∧ (∀ c ∈ tld.data, c.isAlpha = true) ∧
      '@' ∉ loc.data ∧ '@' ∉ (labels ++ "." ++ tld).data := by
  obtain ⟨l, d, t, he, hl, hlc, hd, hdc, ht, htc, hal, har⟩ := match_shape email h
  have e1 : email = String.mk l ++ "@" ++ String.mk d ++ "." ++ String.mk t := by
    apply String.ext
    simp only [String.data_append]
    rw [he]
    simp
  refine ⟨String.mk l, String.mk d, String.mk t, e1, ?_, mk_ne_empty hl, hlc, mk_ne_empty hd,
    hdc, ht, htc, hal, ?_⟩
  · rw [e1]
    simp only [String.append_assoc]
  · have a2 : ("." : String).data = ['.'] := rfl
    simp only [String.data_append, a2]
    simpa using har

theorem emailFormat_iff (email : String) :
    emailPattern.MatchString email = true ↔ EmailFormat email := by
  constructor
  · intro h
    obtain ⟨loc, labels, tld, e1, -, h1, h2, h3, h4, h5, h6, -, -⟩ := match_decomp email h
    exact ⟨loc, labels, tld, e1, h1, h2, h3, h4, h5, h6⟩
  · rintro ⟨loc, labels, tld, e1, h1, h2, h3, h4, h5, h6⟩
    rw [matchString_emailPattern]
    refine ⟨loc.data, labels.data, tld.data, ?_, data_ne_nil h1, h2, data_ne_nil h3, h4, h5, h6⟩
    rw [e1]
    simp only [String.data_append]
    simp

theorem isValidEmail_of_no_match (dns : net.Resolver) (email : String)
    (h : emailPattern.MatchString email = false) :
    isValidEmail dns email =
      (some (false, "Invalid email format", false, false, "", false, ""), []) := by
  simp [isValidEmail, h]

theorem beginsWith_ne_empty {s tag : String} (h : BeginsWith s tag) (ht : tag ≠ "") :
    s ≠ "" := by
  obtain ⟨rest, rfl⟩ := h
  intro e
  have := congrArg String.data e
  rw [String.data_append] at this
  exact data_ne_nil ht (List.append_eq_nil.mp this).1

/-- The two shapes of a result of `checkSPF`. -/
theorem checkSPF_cases (dns : net.Resolver) (domain : String) :
    (checkSPF dns domain).1 = (false, "") ∨
      ∃ r, BeginsWith r "v=spf1" ∧ (checkSPF dns domain).1 = (true, r) := by
  by_cases herr : (dns.LookupTXT domain).2 = none
  · have h : dns.LookupTXT domain = ((dns.LookupTXT domain).1, none) := by
      rw [← herr]
    rw [checkSPF_of_ok dns domain _ h]
    rcases checkSPF_loop_cases (dns.LookupTXT domain).1 with ⟨h1, -⟩ | ⟨r, -, h1, h2⟩
    · exact Or.inl h1
    · exact Or.inr ⟨r, (strings.HasPrefix_iff r "v=spf1").mp h1, h2⟩
  · rw [checkSPF_of_err dns domain herr]
    exact Or.inl rfl

/-- The two shapes of a result of `checkDMARC`. -/
theorem checkDMARC_cases (dns : net.Resolver) (domain : String) :
    (checkDMARC dns domain).1 = (false, "") ∨
      ∃ r, BeginsWith r "v=DMARC1" ∧ (checkDMARC dns domain).1 = (true, r) := by
  by_cases herr : (dns.LookupTXT ("_dmarc." ++ domain)).2 = none
  · have h : dns.LookupTXT ("_dmarc." ++ domain) =
        ((dns.LookupTXT ("_dmarc." ++ domain)).1, none) := by
      rw [← herr]
    rw [checkDMARC_of_ok dns domain _ h]
    rcases checkDMARC_loop_cases (dns.LookupTXT ("_dmarc." ++ domain)).1 with
      ⟨h1, -⟩ | ⟨r, -, h1, h2⟩
    · exact Or.inl h1
    · exact Or.inr ⟨r, (strings.HasPrefix_iff r "v=DMARC1").mp h1, h2⟩
  · rw [checkDMARC_of_err dns domain herr]
    exact Or.inl rfl

/-- The function `isValidEmail` never panics: it returns its seven results on every email. -/
theorem isValidEmail_some (dns : net.Resolver) (email : String) :
    ∃ res, (isValidEmail dns email).1 = some res := by
  cases h : emailPattern.MatchString email with
  | false => exact ⟨_, by rw [isValidEmail_of_no_match dns email h]⟩
  | true =>
    obtain ⟨loc, labels, tld, -, e2, -⟩ := match_decomp email h
    exact ⟨_, by rw [isValidEmail_of_match dns email loc _ h e2]⟩

theorem beginsWith_lower_not_upper (r : String) (h : BeginsWith r "v=dmarc1") :
    ¬ BeginsWith r "v=DMARC1" := by
  obtain ⟨a, rfl⟩ := h
  rintro ⟨b, hb⟩
  have := congrArg String.data hb
  rw [String.data_append, String.data_append] at this
  have e1 : ("v=dmarc1" : String).data = ['v', '=', 'd', 'm', 'a', 'r', 'c', '1'] := rfl
  have e2 : ("v=DMARC1" : String).data = ['v', '=', 'D', 'M', 'A', 'R', 'C', '1'] := rfl
  rw [e1, e2] at this
  simp at this

/-- The fields tagged `omitempty` are written exactly when they are not empty. -/
theorem Encode_fields (v : EmailResponse) :
    ((∃ x, ("reason", x) ∈ json.Encode v) ↔ v.Reason ≠ "") ∧
    ((∃ x, ("spfRecord", x) ∈ json.Encode v) ↔ v.SPFRecord ≠ "") ∧
    ((∃ x, ("dmarcRecord", x) ∈ json.Encode v) ↔ v.DMARCRecord ≠ "") := by
  refine ⟨?_, ?_, ?_⟩
  · by_cases h1 : v.Reason = "" <;> by_cases h2 : v.SPFRecord = "" <;>
      by_cases h3 : v.DMARCRecord = "" <;> simp [json.Encode, json.omitempty, h1, h2, h3]
  · by_cases h1 : v.Reason = "" <;> by_cases h2 : v.SPFRecord = "" <;>
      by_cases h3 : v.DMARCRecord = "" <;> simp [json.Encode, json.omitempty, h1, h2, h3]
  · by_cases h1 : v.Reason = "" <;> by_cases h2 : v.SPFRecord = "" <;>
      by_cases h3 : v.DMARCRecord = "" <;> simp [json.Encode, json.omitempty, h1, h2, h3]

/-! ## Properties of the specification -/

/-- C1: an email that does not match the pattern gets, whatever the DNS would answer,
`(false, "Invalid email format", false, false, "", false, "")`, and no lookup is made. -/
theorem C1_invalid_format (dns : net.Resolver) (email : String)
    (h : emailPattern.MatchString email = false) :
    isValidEmail dns email =
      (some (false, "Invalid email format", false, false, "", false, ""), []) := by
  simp [isValidEmail, h]

theorem C1_invalid_format_witness :
    emailPattern.MatchString "a@b.c" = false ∧
    isValidEmail sampleDNS "a@b.c" =
      (some (false, "Invalid email format", false, false, "", false, ""), []) :=
  ⟨by decide, C1_invalid_format sampleDNS "a@b.c" (by decide)⟩

/-- C2: for a matching email `loc ++ "@" ++ domain`, `hasMX` is true exactly when the MX lookup
of `domain` returns no error and at least one record, and then `valid = true` and
`reason = ""`. -/
theorem C2_hasMX (dns : net.Resolver) (email loc domain : String)
    (h : emailPattern.MatchString email = true) (he : email = loc ++ "@" ++ domain) :
    ∃ (valid : Bool) (reason : String) (hasMX hasSPF : Bool) (spfRecord : String)
      (hasDMARC : Bool) (dmarcRecord : String),
      (isValidEmail dns email).1 =
        some (valid, reason, hasMX, hasSPF, spfRecord, hasDMARC, dmarcRecord) ∧
      (hasMX = true ↔ (dns.LookupMX domain).2 = none ∧ 1 ≤ (dns.LookupMX domain).1.length) ∧
      (hasMX = true → valid = true ∧ reason = "") := by
  rw [isValidEmail_of_match dns email loc domain h he]
  refine ⟨_, _, _, _, _, _, _, rfl, ?_, ?_⟩
  · simp [Nat.succ_le_iff]
  · intro hmx
    simp [hmx]

theorem C2_hasMX_witness :
    ∃ (valid : Bool) (reason : String) (hasMX hasSPF : Bool) (spfRecord : String)
      (hasDMARC : Bool) (dmarcRecord : String),
      (isValidEmail sampleDNS "user@example.com").1 =
        some (valid, reason, hasMX, hasSPF, spfRecord, hasDMARC, dmarcRecord) ∧
      (hasMX = true ↔ (sampleDNS.LookupMX "example.com").2 = none ∧
        1 ≤ (sampleDNS.LookupMX "example.com").1.length) ∧
      (hasMX = true → valid = true ∧ reason = "") :=
  C2_hasMX sampleDNS "user@example.com" "user" "example.com" (by decide) (by decide)

/-- C3: for a matching email `loc ++ "@" ++ domain` whose MX lookup fails or returns no record,
the result is `valid = false`, the reason `"Domain does not have valid MX records"`,
`hasMX = false`, and the SPF and DMARC components are those of `checkSPF domain` and
`checkDMARC domain`; a DNS with the same TXT answers gives the same four components whatever
its MX answer. -/
theorem C3_no_MX (dns : net.Resolver) (email loc domain : String)
    (h : emailPattern.MatchString email = true) (he : email = loc ++ "@" ++ domain)
    (hmx : (dns.LookupMX domain).2 ≠ none ∨ (dns.LookupMX domain).1.length = 0) :
    (isValidEmail dns email).1 =
        some (false, "Domain does not have valid MX records", false,
          (checkSPF dns domain).1.1, (checkSPF dns domain).1.2,
          (checkDMARC dns domain).1.1, (checkDMARC dns domain).1.2) ∧
      ∀ dns' : net.Resolver, dns'.LookupTXT = dns.LookupTXT →
        ∃ (valid : Bool) (reason : String) (hasMX : Bool),
          (isValidEmail dns' email).1 =
            some (valid, reason, hasMX, (checkSPF dns domain).1.1, (checkSPF dns domain).1.2,
              (checkDMARC dns domain).1.1, (checkDMARC dns domain).1.2) := by
  constructor
  · rw [isValidEmail_of_match dns email loc domain h he]
    have hf : (decide ((dns.LookupMX domain).2 = none) &&
        decide ((dns.LookupMX domain).1.length > 0)) = false := by
      rcases hmx with hmx | hmx
      · simp [hmx]
      · simp [hmx]
    simp [hf]
  · intro dns' htxt
    rw [isValidEmail_of_match dns' email loc domain h he]
    have h1 : checkSPF dns' domain = checkSPF dns domain := by simp [checkSPF, htxt]
    have h2 : checkDMARC dns' domain = checkDMARC dns domain := by simp [checkDMARC, htxt]
    exact ⟨_, _, _, by rw [h1, h2]⟩

theorem C3_no_MX_witness :
    (isValidEmail noMailDNS "info@example.org").1 =
        some (false, "Domain does not have valid MX records", false,
          (checkSPF noMailDNS "example.org").1.1, (checkSPF noMailDNS "example.org").1.2,
          (checkDMARC noMailDNS "example.org").1.1, (checkDMARC noMailDNS "example.org").1.2) ∧
      ∀ dns' : net.Resolver, dns'.LookupTXT = noMailDNS.LookupTXT →
        ∃ (valid : Bool) (reason : String) (hasMX : Bool),
          (isValidEmail dns' "info@example.org").1 =
            some (valid, reason, hasMX, (checkSPF noMailDNS "example.org").1.1,
              (checkSPF noMailDNS "example.org").1.2,
              (checkDMARC noMailDNS "example.org").1.1,
              (checkDMARC noMailDNS "example.org").1.2) :=
  C3_no_MX noMailDNS "info@example.org" "info" "example.org" (by decide) (by decide)
    (Or.inr (by decide))

/-- C4: when the TXT lookup of `domain` succeeds with the records `L`, `checkSPF` reports
`hasSPF = true` exactly when some record of `L` begins with `v=spf1`; it then returns the first
such record of `L`, unchanged, and returns `(false, "")` when there is none.  The record
`v=spf1 include:_spf.example.com ~all` is found wherever it stands in `L`, and returned when no
record before it begins with `v=spf1`. -/
theorem C4_checkSPF (dns : net.Resolver) (domain : String) (L : List String)
    (h : dns.LookupTXT domain = (L, none)) :
    ((checkSPF dns domain).1.1 = true ↔ ∃ r ∈ L, BeginsWith r "v=spf1") ∧
    (∀ (pre post : List String) (r : String), L = pre ++ r :: post →
      (∀ x ∈ pre, ¬ BeginsWith x "v=spf1") → BeginsWith r "v=spf1" →
      (checkSPF dns domain).1 = (true, r)) ∧
    ((¬ ∃ r ∈ L, BeginsWith r "v=spf1") → (checkSPF dns domain).1 = (false, "")) ∧
    ("v=spf1 include:_spf.example.com ~all" ∈ L → (checkSPF dns domain).1.1 = true) ∧
    (L = ["v=spf1 include:_spf.example.com ~all"] →
      (checkSPF dns domain).1 = (true, "v=spf1 include:_spf.example.com ~all")) := by
  rw [checkSPF_of_ok dns domain L h]
  have hiff : (checkSPF.loop L).1 = true ↔ ∃ r ∈ L, BeginsWith r "v=spf1" := by
    rcases checkSPF_loop_cases L with ⟨h1, h2⟩ | ⟨r, hr, h1, h2⟩
    · rw [h1]
      constructor
      · intro hf; exact absurd hf (by decide)
      · rintro ⟨r, hr, hb⟩
        have := h2 r hr
        rw [(strings.HasPrefix_iff r "v=spf1").mpr hb] at this
        exact absurd this (by decide)
    · rw [h2]
      exact ⟨fun _ => ⟨r, hr, (strings.HasPrefix_iff r "v=spf1").mp h1⟩, fun _ => rfl⟩
  have hnone : (¬ ∃ r ∈ L, BeginsWith r "v=spf1") → checkSPF.loop L = (false, "") := by
    intro hn
    apply checkSPF_loop_none
    intro x hx
    rw [not_HasPrefix_iff]
    exact fun hb => hn ⟨x, hx, hb⟩
  refine ⟨hiff, ?_, hnone, ?_, ?_⟩
  · rintro pre post r rfl hpre hr
    apply checkSPF_loop_first
    · intro x hx
      rw [not_HasPrefix_iff]
      exact hpre x hx
    · exact (strings.HasPrefix_iff r "v=spf1").mpr hr
  · intro hmem
    exact hiff.mpr ⟨_, hmem, " include:_spf.example.com ~all", by decide⟩
  · rintro rfl
    rfl

theorem C4_checkSPF_witness :
    sampleDNS.LookupTXT "example.com" =
        (["docusign=1b0a6754", "v=spf1 include:_spf.example.com ~all"], none) ∧
      (checkSPF sampleDNS "example.com").1.1 = true :=
  ⟨rfl, (C4_checkSPF sampleDNS "example.com"
    ["docusign=1b0a6754", "v=spf1 include:_spf.example.com ~all"] rfl).2.2.2.1 (by decide)⟩

/-- C5: `checkDMARC` looks up the TXT records of `"_dmarc." ++ domain` and nothing else, and its
result depends on no other answer of the DNS; when that lookup succeeds with the records `L`,
`hasDMARC = true` exactly when some record of `L` begins with `v=DMARC1`, in that very case of
letters (a record beginning `v=dmarc1` is not one); the record returned is then the first such
record of `L`, unchanged, and `(false, "")` is returned when there is none.  A first record
beginning `v=DMARC1; p=none` is returned as it is. -/
theorem C5_checkDMARC (dns : net.Resolver) (domain : String) :
    (checkDMARC dns domain).2 = [net.Query.txt ("_dmarc." ++ domain)] ∧
    (∀ dns' : net.Resolver,
      dns'.LookupTXT ("_dmarc." ++ domain) = dns.LookupTXT ("_dmarc." ++ domain) →
      checkDMARC dns' domain = checkDMARC dns domain) ∧
    ∀ L : List String, dns.LookupTXT ("_dmarc." ++ domain) = (L, none) →
      ((checkDMARC dns domain).1.1 = true ↔ ∃ r ∈ L, BeginsWith r "v=DMARC1") ∧
      (∀ (pre post : List String) (r : String), L = pre ++ r :: post →
        (∀ x ∈ pre, ¬ BeginsWith x "v=DMARC1") → BeginsWith r "v=DMARC1" →
        (checkDMARC dns domain).1 = (true, r)) ∧
      ((¬ ∃ r ∈ L, BeginsWith r "v=DMARC1") → (checkDMARC dns domain).1 = (false, "")) ∧
      ((∀ r ∈ L, BeginsWith r "v=dmarc1") → (checkDMARC dns domain).1 = (false, "")) ∧
      (∀ (r : String) (post : List String), L = r :: post → BeginsWith r "v=DMARC1; p=none" →
        (checkDMARC dns domain).1 = (true, r)) := by
  refine ⟨?_, ?_, ?_⟩
  · unfold checkDMARC
    simp only []
    split <;> rfl
  · intro dns' h
    simp [checkDMARC, h]
  · intro L h
    rw [checkDMARC_of_ok dns domain L h]
    have hiff : (checkDMARC.loop L).1 = true ↔ ∃ r ∈ L, BeginsWith r "v=DMARC1" := by
      rcases checkDMARC_loop_cases L with ⟨h1, h2⟩ | ⟨r, hr, h1, h2⟩
      · rw [h1]
        constructor
        · intro hf; exact absurd hf (by decide)
        · rintro ⟨r, hr, hb⟩
          have := h2 r hr
          rw [(strings.HasPrefix_iff r "v=DMARC1").mpr hb] at this
          exact absurd this (by decide)
      · rw [h2]
        exact ⟨fun _ => ⟨r, hr, (strings.HasPrefix_iff r "v=DMARC1").mp h1⟩, fun _ => rfl⟩
    have hnone : (¬ ∃ r ∈ L, BeginsWith r "v=DMARC1") → checkDMARC.loop L = (false, "") := by
      intro hn
      apply checkDMARC_loop_none
      intro x hx
      rw [not_HasPrefix_iff]
      exact fun hb => hn ⟨x, hx, hb⟩
    have hfirst : ∀ (pre post : List String) (r : String), L = pre ++ r :: post →
        (∀ x ∈ pre, ¬ BeginsWith x "v=DMARC1") → BeginsWith r "v=DMARC1" →
        checkDMARC.loop L = (true, r) := by
      rintro pre post r rfl hpre hr
      apply checkDMARC_loop_first
      · intro x hx
        rw [not_HasPrefix_iff]
        exact hpre x hx
      · exact (strings.HasPrefix_iff r "v=DMARC1").mpr hr
    refine ⟨hiff, hfirst, hnone, ?_, ?_⟩
    · intro hall
      apply hnone
      rintro ⟨r, hr, hb⟩
      exact beginsWith_lower_not_upper r (hall r hr) hb
    · rintro r post rfl ⟨rest, rfl⟩
      apply hfirst [] post _ rfl (by simp)
      exact ⟨"; p=none" ++ rest, by rw [← String.append_assoc]; rfl⟩

theorem C5_checkDMARC_witness :
    checkDMARC sampleDNS "example.com" =
        ((true, "v=DMARC1; p=none"), [net.Query.txt "_dmarc.example.com"]) ∧
      checkDMARC noMailDNS "example.org" =
        ((true, "v=DMARC1; p=reject"), [net.Query.txt "_dmarc.example.org"]) :=
  ⟨Prod.ext
    (((C5_checkDMARC sampleDNS "example.com").2.2 ["v=DMARC1; p=none"] rfl).2.2.2.2
      "v=DMARC1; p=none" [] rfl ⟨"", by decide⟩)
    (C5_checkDMARC sampleDNS "example.com").1,
   rfl⟩

/-- C6: the status of `verifyEmailHandler` is decided in this order: 405 when the method is not
`POST`, whatever the body; else 400 when the body does not decode, or decodes to an empty
email, as the body `{}` does; else 200 with the JSON encoding of the results of
`isValidEmail`, whether `valid` is true or false. -/
theorem C6_handler_status (dns : net.Resolver) (decode : String → Option EmailRequest)
    (r : http.Request) :
    (r.Method ≠ "POST" →
      ∃ resp, verifyEmailHandler dns decode r = (some resp, []) ∧ resp.status = 405) ∧
    (r.Method = "POST" → decode r.Body = none →
      ∃ resp, verifyEmailHandler dns decode r = (some resp, []) ∧ resp.status = 400) ∧
    (r.Method = "POST" → ∀ req, decode r.Body = some req → req.Email = "" →
      ∃ resp, verifyEmailHandler dns decode r = (some resp, []) ∧ resp.status = 400) ∧
    (r.Method = "POST" → r.Body = "\x7b\x7d" → decode "\x7b\x7d" = some { Email := "" } →
      ∃ resp, verifyEmailHandler dns decode r = (some resp, []) ∧ resp.status = 400) ∧
    (r.Method = "POST" → ∀ req, decode r.Body = some req → req.Email ≠ "" →
      ∃ (valid : Bool) (reason : String) (hasMX hasSPF : Bool) (spfRecord : String)
        (hasDMARC : Bool) (dmarcRecord : String),
        (isValidEmail dns req.Email).1 =
          some (valid, reason, hasMX, hasSPF, spfRecord, hasDMARC, dmarcRecord) ∧
        (verifyEmailHandler dns decode r).1 =
          some { status := 200, contentType := "application/json",
                 body := .json (json.Encode
                   { Valid := valid, Reason := reason, HasMX := hasMX, HasSPF := hasSPF,
                     SPFRecord := spfRecord, HasDMARC := hasDMARC,
                     DMARCRecord := dmarcRecord }) }) := by
  have hempty : r.Method = "POST" → ∀ req, decode r.Body = some req → req.Email = "" →
      ∃ resp, verifyEmailHandler dns decode r = (some resp, []) ∧ resp.status = 400 := by
    intro hm req hd he
    refine ⟨http.Error "Email is required" http.StatusBadRequest, ?_, rfl⟩
    simp [verifyEmailHandler, http.MethodPost, hm, hd, he]
  refine ⟨?_, ?_, hempty, ?_, ?_⟩
  · intro hm
    refine ⟨http.Error "Only POST method is allowed" http.StatusMethodNotAllowed, ?_, rfl⟩
    simp [verifyEmailHandler, http.MethodPost, hm]
  · intro hm hd
    refine ⟨http.Error "Invalid request body" http.StatusBadRequest, ?_, rfl⟩
    simp [verifyEmailHandler, http.MethodPost, hm, hd]
  · intro hm hb hd
    exact hempty hm _ (by rw [hb]; exact hd) rfl
  · intro hm req hd he
    obtain ⟨⟨valid, reason, hasMX, hasSPF, spfRecord, hasDMARC, dmarcRecord⟩, hres⟩ :=
      isValidEmail_some dns req.Email
    refine ⟨valid, reason, hasMX, hasSPF, spfRecord, hasDMARC, dmarcRecord, hres, ?_⟩
    have hpair : isValidEmail dns req.Email =
        (some (valid, reason, hasMX, hasSPF, spfRecord, hasDMARC, dmarcRecord),
          (isValidEmail dns req.Email).2) := by
      rw [← hres]
    unfold verifyEmailHandler
    rw [if_neg (by rw [hm]; exact fun h => h rfl)]
    simp only [hd, if_neg he]
    rw [hpair]
    rfl

theorem C6_handler_status_witness :
    (∃ resp, verifyEmailHandler sampleDNS sampleDecode
        { Method := "GET", Body := "\x7b\"email\":\"user@example.com\"\x7d" } = (some resp, []) ∧
      resp.status = 405) ∧
    (∃ resp, verifyEmailHandler sampleDNS sampleDecode
        { Method := "POST", Body := "\x7b\"email\":" } = (some resp, []) ∧ resp.status = 400) ∧
    (∃ resp, verifyEmailHandler sampleDNS sampleDecode
        { Method := "POST", Body := "\x7b\x7d" } = (some resp, []) ∧ resp.status = 400) :=
  ⟨(C6_handler_status sampleDNS sampleDecode
      { Method := "GET", Body := "\x7b\"email\":\"user@example.com\"\x7d" }).1 (by decide),
   (C6_handler_status sampleDNS sampleDecode
      { Method := "POST", Body := "\x7b\"email\":" }).2.1 rfl (by decide),
   (C6_handler_status sampleDNS sampleDecode
      { Method := "POST", Body := "\x7b\x7d" }).2.2.2.1 rfl rfl (by decide)⟩

/-- The handler on a well-formed request for a deliverable address. -/
theorem verifyEmailHandler_sample_ok :
    verifyEmailHandler sampleDNS sampleDecode
        { Method := "POST", Body := "\x7b\"email\":\"user@example.com\"\x7d" } =
      (some { status := 200, contentType := "application/json",
              body := .json [("valid", .bool true), ("hasMX", .bool true),
                ("hasSPF", .bool true),
                ("spfRecord", .string "v=spf1 include:_spf.example.com ~all"),
                ("hasDMARC", .bool true), ("dmarcRecord", .string "v=DMARC1; p=none")] },
       [.mx "example.com", .txt "example.com", .txt "_dmarc.example.com"]) := by
  rfl

/-- The handler on a well-formed request for an address of the wrong format: still 200. -/
theorem verifyEmailHandler_sample_invalid :
    verifyEmailHandler sampleDNS sampleDecode
        { Method := "POST", Body := "\x7b\"email\":\"nobody\"\x7d" } =
      (some { status := 200, contentType := "application/json",
              body := .json [("valid", .bool false),
                ("reason", .string "Invalid email format"), ("hasMX", .bool false),
                ("hasSPF", .bool false), ("hasDMARC", .bool false)] },
       []) := by
  rfl

/-- C7: a lookup that returns an error gives a false flag and an empty record: the MX flag of a
matching email `loc ++ "@" ++ domain` (also when records come with the error), the result of
`checkSPF` for the TXT lookup of `domain`, the result of `checkDMARC` for the TXT lookup of
`"_dmarc." ++ domain`.  Each of the three findings is decided by its own lookup alone, so an
error in one changes neither of the other two, and `isValidEmail` returns its results on every
email, never an error. -/
theorem C7_lookup_errors (dns : net.Resolver) :
    (∀ email loc domain : String, emailPattern.MatchString email = true →
      email = loc ++ "@" ++ domain →
      ∃ (valid : Bool) (reason : String) (hasMX hasSPF : Bool) (spfRecord : String)
        (hasDMARC : Bool) (dmarcRecord : String),
        (isValidEmail dns email).1 =
          some (valid, reason, hasMX, hasSPF, spfRecord, hasDMARC, dmarcRecord) ∧
        ((dns.LookupMX domain).2 ≠ none → hasMX = false) ∧
        ((dns.LookupTXT domain).2 ≠ none → hasSPF = false ∧ spfRecord = "") ∧
        ((dns.LookupTXT ("_dmarc." ++ domain)).2 ≠ none →
          hasDMARC = false ∧ dmarcRecord = "") ∧
        ∀ dns' : net.Resolver,
          ∃ (valid' : Bool) (reason' : String) (hasMX' hasSPF' : Bool) (spfRecord' : String)
            (hasDMARC' : Bool) (dmarcRecord' : String),
            (isValidEmail dns' email).1 =
              some (valid', reason', hasMX', hasSPF', spfRecord', hasDMARC', dmarcRecord') ∧
            (dns'.LookupMX domain = dns.LookupMX domain → hasMX' = hasMX) ∧
            (dns'.LookupTXT domain = dns.LookupTXT domain →
              hasSPF' = hasSPF ∧ spfRecord' = spfRecord) ∧
            (dns'.LookupTXT ("_dmarc." ++ domain) = dns.LookupTXT ("_dmarc." ++ domain) →
              hasDMARC' = hasDMARC ∧ dmarcRecord' = dmarcRecord)) ∧
    (∀ domain : String, (dns.LookupTXT domain).2 ≠ none →
      (checkSPF dns domain).1 = (false, "")) ∧
    (∀ domain : String, (dns.LookupTXT ("_dmarc." ++ domain)).2 ≠ none →
      (checkDMARC dns domain).1 = (false, "")) ∧
    (∀ email : String, ∃ res, (isValidEmail dns email).1 = some res) := by
  refine ⟨?_, ?_, ?_, isValidEmail_some dns⟩
  · intro email loc domain h he
    rw [isValidEmail_of_match dns email loc domain h he]
    refine ⟨_, _, _, _, _, _, _, rfl, ?_, ?_, ?_, ?_⟩
    · intro herr
      simp [herr]
    · intro herr
      rw [checkSPF_of_err dns domain herr]
      exact ⟨rfl, rfl⟩
    · intro herr
      rw [checkDMARC_of_err dns domain herr]
      exact ⟨rfl, rfl⟩
    · intro dns'
      rw [isValidEmail_of_match dns' email loc domain h he]
      refine ⟨_, _, _, _, _, _, _, rfl, ?_, ?_, ?_⟩
      · intro e; rw [e]
      · intro e
        have : checkSPF dns' domain = checkSPF dns domain := by simp [checkSPF, e]
        rw [this]
        exact ⟨rfl, rfl⟩
      · intro e
        have : checkDMARC dns' domain = checkDMARC dns domain := by simp [checkDMARC, e]
        rw [this]
        exact ⟨rfl, rfl⟩
  · intro domain herr
    rw [checkSPF_of_err dns domain herr]
  · intro domain herr
    rw [checkDMARC_of_err dns domain herr]

theorem C7_lookup_errors_witness :
    (checkSPF failingDNS "example.com").1 = (false, "") ∧
    (checkDMARC failingDNS "example.com").1 = (false, "") ∧
    ∃ res, (isValidEmail failingDNS "user@example.com").1 = some res :=
  ⟨(C7_lookup_errors failingDNS).2.1 "example.com" (by decide),
   (C7_lookup_errors failingDNS).2.2.1 "example.com" (by decide),
   (C7_lookup_errors failingDNS).2.2.2 "user@example.com"⟩

/-- The function `isValidEmail` where every lookup fails, with records alongside the errors. -/
theorem isValidEmail_failingDNS :
    isValidEmail failingDNS "user@example.com" =
      (some (false, "Domain does not have valid MX records", false, false, "", false, ""),
       [.mx "example.com", .txt "example.com", .txt "_dmarc.example.com"]) := by
  rfl

/-- C8: the format check of `isValidEmail` accepts exactly the strings that are, as a whole,
`loc ++ "@" ++ labels ++ "." ++ tld` with `loc` non-empty over `[a-zA-Z0-9._%+-]`, `labels`
non-empty over `[a-zA-Z0-9.-]` and `tld` two or more ASCII letters; the other strings are the
ones answered `Invalid email format`.  It accepts `a@b.co` and rejects `a@b.c`, `a@@b.co`,
`@b.co` and `a@b.co` followed by a newline. -/
theorem C8_format_check :
    (∀ email : String, emailPattern.MatchString email = true ↔ EmailFormat email) ∧
    (∀ (dns : net.Resolver) (email : String),
      (isValidEmail dns email).1 =
        some (false, "Invalid email format", false, false, "", false, "") ↔
      ¬ EmailFormat email) ∧
    emailPattern.MatchString "a@b.co" = true ∧
    emailPattern.MatchString "a@b.c" = false ∧
    emailPattern.MatchString "a@@b.co" = false ∧
    emailPattern.MatchString "@b.co" = false ∧
    emailPattern.MatchString "a@b.co\n" = false := by
  refine ⟨emailFormat_iff, ?_, by decide, by decide, by decide, by decide, by decide⟩
  intro dns email
  rw [← emailFormat_iff]
  cases h : emailPattern.MatchString email with
  | false =>
    rw [isValidEmail_of_no_match dns email h]
    simp
  | true =>
    obtain ⟨loc, labels, tld, -, e2, -⟩ := match_decomp email h
    rw [isValidEmail_of_match dns email loc _ h e2]
    simp only [Option.some.injEq, Prod.mk.injEq, not_true_eq_false, iff_false, not_and]
    intro h1 h2
    rw [h1] at h2
    exact absurd h2 (by decide)

/-- C9: on every email and for every DNS, the results of `isValidEmail` are such that `reason`
is non-empty exactly when `valid = false`; `valid = hasMX`; `spfRecord` is non-empty exactly
when `hasSPF = true`, and then begins with `v=spf1`; `dmarcRecord` is non-empty exactly when
`hasDMARC = true`, and then begins with `v=DMARC1`.  So the JSON fields `reason`, `spfRecord`
and `dmarcRecord` are written exactly when `valid = false`, `hasSPF = true` and
`hasDMARC = true`. -/
theorem C9_result_invariants (dns : net.Resolver) (email : String) :
    ∃ (valid : Bool) (reason : String) (hasMX hasSPF : Bool) (spfRecord : String)
      (hasDMARC : Bool) (dmarcRecord : String),
      (isValidEmail dns email).1 =
        some (valid, reason, hasMX, hasSPF, spfRecord, hasDMARC, dmarcRecord) ∧
      (reason ≠ "" ↔ valid = false) ∧
      valid = hasMX ∧
      (spfRecord ≠ "" ↔ hasSPF = true) ∧
      (hasSPF = true → BeginsWith spfRecord "v=spf1") ∧
      (dmarcRecord ≠ "" ↔ hasDMARC = true) ∧
      (hasDMARC = true → BeginsWith dmarcRecord "v=DMARC1") ∧
      ((∃ x, ("reason", x) ∈ json.Encode
          { Valid := valid, Reason := reason, HasMX := hasMX, HasSPF := hasSPF,
            SPFRecord := spfRecord, HasDMARC := hasDMARC, DMARCRecord := dmarcRecord }) ↔
        valid = false) ∧
      ((∃ x, ("spfRecord", x) ∈ json.Encode
          { Valid := valid, Reason := reason, HasMX := hasMX, HasSPF := hasSPF,
            SPFRecord := spfRecord, HasDMARC := hasDMARC, DMARCRecord := dmarcRecord }) ↔
        hasSPF = true) ∧
      ((∃ x, ("dmarcRecord", x) ∈ json.Encode
          { Valid := valid, Reason := reason, HasMX := hasMX, HasSPF := hasSPF,
            SPFRecord := spfRecord, HasDMARC := hasDMARC, DMARCRecord := dmarcRecord }) ↔
        hasDMARC = true) := by
  have key : ∃ (valid : Bool) (reason : String) (hasMX hasSPF : Bool) (spfRecord : String)
      (hasDMARC : Bool) (dmarcRecord : String),
      (isValidEmail dns email).1 =
        some (valid, reason, hasMX, hasSPF, spfRecord, hasDMARC, dmarcRecord) ∧
      (reason ≠ "" ↔ valid = false) ∧
      valid = hasMX ∧
      (spfRecord ≠ "" ↔ hasSPF = true) ∧
      (hasSPF = true → BeginsWith spfRecord "v=spf1") ∧
      (dmarcRecord ≠ "" ↔ hasDMARC = true) ∧
      (hasDMARC = true → BeginsWith dmarcRecord "v=DMARC1") := by
    cases h : emailPattern.MatchString email with
    | false =>
      rw [isValidEmail_of_no_match dns email h]
      exact ⟨_, _, _, _, _, _, _, rfl, by decide, rfl, by decide,
        fun hf => absurd hf (by decide), by decide, fun hf => absurd hf (by decide)⟩
    | true =>
      obtain ⟨loc, labels, tld, -, e2, -⟩ := match_decomp email h
      rw [isValidEmail_of_match dns email loc _ h e2]
      refine ⟨_, _, _, _, _, _, _, rfl, ?_, rfl, ?_, ?_, ?_, ?_⟩
      · cases (decide ((dns.LookupMX (labels ++ "." ++ tld)).2 = none) &&
          decide ((dns.LookupMX (labels ++ "." ++ tld)).1.length > 0)) <;> decide
      · rcases checkSPF_cases dns (labels ++ "." ++ tld) with h1 | ⟨r, hr, h1⟩
        · rw [h1]; decide
        · rw [h1]
          exact ⟨fun _ => rfl, fun _ => beginsWith_ne_empty hr (by decide)⟩
      · rcases checkSPF_cases dns (labels ++ "." ++ tld) with h1 | ⟨r, hr, h1⟩
        · rw [h1]; intro hf; exact absurd hf (by decide)
        · rw [h1]; exact fun _ => hr
      · rcases checkDMARC_cases dns (labels ++ "." ++ tld) with h1 | ⟨r, hr, h1⟩
        · rw [h1]; decide
        · rw [h1]
          exact ⟨fun _ => rfl, fun _ => beginsWith_ne_empty hr (by decide)⟩
      · rcases checkDMARC_cases dns (labels ++ "." ++ tld) with h1 | ⟨r, hr, h1⟩
        · rw [h1]; intro hf; exact absurd hf (by decide)
        · rw [h1]; exact fun _ => hr
  obtain ⟨valid, reason, hasMX, hasSPF, spfRecord, hasDMARC, dmarcRecord, h0, h1, h2, h3, h4,
    h5, h6⟩ := key
  have hj := Encode_fields
    { Valid := valid, Reason := reason, HasMX := hasMX, HasSPF := hasSPF,
      SPFRecord := spfRecord, HasDMARC := hasDMARC, DMARCRecord := dmarcRecord }
  exact ⟨valid, reason, hasMX, hasSPF, spfRecord, hasDMARC, dmarcRecord, h0, h1, h2, h3, h4,
    h5, h6, hj.1.trans h1, hj.2.1.trans h3, hj.2.2.trans h5⟩

theorem C9_result_invariants_witness :
    ∃ (valid : Bool) (reason : String) (hasMX hasSPF : Bool) (spfRecord : String)
      (hasDMARC : Bool) (dmarcRecord : String),
      (isValidEmail noMailDNS "info@example.org").1 =
        some (valid, reason, hasMX, hasSPF, spfRecord, hasDMARC, dmarcRecord) ∧
      (reason ≠ "" ↔ valid = false) ∧
      valid = hasMX ∧
      (spfRecord ≠ "" ↔ hasSPF = true) :=
  let ⟨valid, reason, hasMX, hasSPF, spfRecord, hasDMARC, dmarcRecord, h0, h1, h2, h3, _⟩ :=
    C9_result_invariants noMailDNS "info@example.org"
  ⟨valid, reason, hasMX, hasSPF, spfRecord, hasDMARC, dmarcRecord, h0, h1, h2, h3⟩

/-- The function `isValidEmail` on a deliverable address. -/
theorem isValidEmail_sampleDNS :
    isValidEmail sampleDNS "user@example.com" =
      (some (true, "", true, true, "v=spf1 include:_spf.example.com ~all", true,
        "v=DMARC1; p=none"),
       [.mx "example.com", .txt "example.com", .txt "_dmarc.example.com"]) := by
  rfl

/-- The function `isValidEmail` on a domain without a mail exchanger. -/
theorem isValidEmail_noMailDNS :
    isValidEmail noMailDNS "info@example.org" =
      (some (false, "Domain does not have valid MX records", false, true, "v=spf1 -all", true,
        "v=DMARC1; p=reject"),
       [.mx "example.org", .txt "example.org", .txt "_dmarc.example.org"]) := by
  rfl

/-- C10: a matching email holds exactly one `@`; `strings.Split` at `@` gives exactly two parts,
so `parts[1]` is in range and `isValidEmail` does not panic; the domain taken is the text after
the `@`: with the local part before it, `loc ++ "@" ++ domain` is the email; the domain is not
empty, holds no `@`, and ends with a dot followed by two or more ASCII letters. -/
theorem C10_domain_extraction (email : String)
    (h : emailPattern.MatchString email = true) :
    email.data.count '@' = 1 ∧
    (strings.Split email "@").length = 2 ∧
    (∀ dns : net.Resolver, (isValidEmail dns email).1 ≠ none) ∧
    ∃ loc domain : String,
      strings.Split email "@" = [loc, domain] ∧
      (strings.Split email "@")[1]? = some domain ∧
      email = loc ++ "@" ++ domain ∧
      '@' ∉ loc.data ∧
      domain ≠ "" ∧
      '@' ∉ domain.data ∧
      ∃ labels tld : String, domain = labels ++ "." ++ tld ∧
        2 ≤ tld.length ∧ ∀ c ∈ tld.data, c.isAlpha = true := by
  obtain ⟨loc, labels, tld, -, e2, -, -, -, -, h5, h6, hl, hr⟩ := match_decomp email h
  have hs := Split_of_match email loc _ h e2
  refine ⟨?_, ?_, ?_, loc, labels ++ "." ++ tld, hs, ?_, e2, hl, ?_, hr, labels, tld, rfl, h5,
    h6⟩
  · have hd : email.data = loc.data ++ '@' :: (labels ++ "." ++ tld).data := by
      rw [e2]
      simp
    rw [hd, List.count_append, List.count_cons_self, List.count_eq_zero_of_not_mem hl,
      List.count_eq_zero_of_not_mem hr]
  · rw [hs]; rfl
  · intro dns
    obtain ⟨res, hres⟩ := isValidEmail_some dns email
    rw [hres]
    exact Option.some_ne_none _
  · rw [hs]; rfl
  · apply @beginsWith_ne_empty _ (labels ++ ".") ⟨tld, rfl⟩
    intro e
    have := congrArg String.data e
    simp at this

theorem C10_domain_extraction_witness :
    emailPattern.MatchString "user@example.com" = true ∧
    ("user@example.com" : String).data.count '@' = 1 ∧
    (strings.Split "user@example.com" "@").length = 2 :=
  ⟨by decide, (C10_domain_extraction "user@example.com" (by decide)).1,
    (C10_domain_extraction "user@example.com" (by decide)).2.1⟩

/-- The function `strings.Split` on the sample address. -/
theorem Split_sample : strings.Split "user@example.com" "@" = ["user", "example.com"] := by
  decide
